import Mathlib

/-!
Verification of the Beta-t-EGARCH in-mean regression model
(pyflux/garch/egarchmreg.py) against its specification.

The development shallowly embeds the numerical core of the module:
the recursive filter producing the log-volatility, conditional-mean and
score series from a transformed parameter vector; the Student-t negative
log-likelihood built on the filter's outputs; the deterministic and
stochastic forecast extensions; the latent-variable layout manipulated by
the leverage toggle; the estimation guards of the user-facing entry
points; and a heap model of the array-copy discipline of the forecast
functions.

Numpy arrays filled in place by the time loop are modelled as functions
from positions to reals, initialised to zero (np.zeros) and written once
per step; negative numpy indices are translated by position from the end
of the array.
-/

namespace EGARCHMRegV

/-! ## Latent-variable layout (z_list bookkeeping) -/

/-- Kinds of latent variables created by the model, one constructor per
distinct name pattern used in the source: GARCH terms p(i), score terms
q(i), the degrees-of-freedom term v, the GARCH-in-mean term, the
volatility-regression and mean-regression coefficients (one per design
column), and the two names introduced by the leverage toggle. -/
inductive ZKind where
  | garch (i : ℕ)
  | score (i : ℕ)
  | v
  | garchM
  | volBeta (i : ℕ)
  | retBeta (i : ℕ)
  | leverageT
  | returnsConst
  deriving DecidableEq, Repr

/-- Latent-variable list built by _create_latent_variables for a model
with p GARCH terms, q score terms and k design-matrix columns. -/
def createZ (p q k : ℕ) : List ZKind :=
  ((List.range p).map ZKind.garch) ++ ((List.range q).map ZKind.score)
    ++ [ZKind.v, ZKind.garchM]
    ++ ((List.range k).map ZKind.volBeta) ++ ((List.range k).map ZKind.retBeta)

/-- State of the latent-variable registry of a model object: the lag
orders, the design-column count, the leverage flag, the declared number
of latent variables z_no, and the ordered list itself. -/
structure LVModel where
  p : ℕ
  q : ℕ
  k : ℕ
  leverage : Bool
  zNo : ℕ
  zList : List ZKind
  deriving Repr

/-- Model object as constructed by __init__ (z_no = p + q + 2 + 2k, no
leverage, latent variables in creation order). -/
def mkModel (p q k : ℕ) : LVModel :=
  { p := p, q := q, k := k, leverage := false,
    zNo := p + q + 2 + 2 * k, zList := createZ p q k }

/-- The add_leverage method: a no-op when leverage is already set;
otherwise it sets the flag, increments z_no, pops the last three latent
variables and appends the Leverage Term, v, Returns Constant and GARCH-M
entries, exactly as the source does. -/
def addLeverage (mo : LVModel) : LVModel :=
  if mo.leverage then mo
  else
    { mo with
      leverage := true
      zNo := mo.zNo + 1
      zList := mo.zList.dropLast.dropLast.dropLast
        ++ [ZKind.leverageT, ZKind.v, ZKind.returnsConst, ZKind.garchM] }

/-! ## The recursive filter (_model) -/

/-- Translation of a negative numpy index -m on an array of length z:
numpy resolves parm[-m] to parm[z-m] for m > 0 and to parm[0] for m = 0. -/
def negIdx (z m : ℕ) : ℕ := if m = 0 then 0 else z - m

/-- Configuration of one filter call: lag orders p and q, number k of
design-matrix columns (len(self.X_names)), the leverage flag, the length
z of the latent-variable vector (z_no), the per-index prior transforms,
the full observation series self.data, and the design matrix self.X
(row index, column index). -/
structure Cfg where
  p : ℕ
  q : ℕ
  k : ℕ
  leverage : Bool
  z : ℕ
  trans : ℕ → ℝ → ℝ
  dataList : List ℝ
  X : ℕ → ℕ → ℝ

/-- max_lag = max(p, q). -/
def Cfg.maxLag (m : Cfg) : ℕ := max m.p m.q

/-- Length of the filtered series: the loop in _model runs over
Y.shape[0] where Y = data[max_lag:]. -/
def Cfg.n (m : Cfg) : ℕ := m.dataList.length - m.maxLag

/-- The truncated observation series Y = data[max_lag:], read at
position t (out-of-range reads default to 0, matching np.zeros slots
never read by the source). -/
noncomputable def Cfg.Yt (m : Cfg) (t : ℕ) : ℝ :=
  (m.dataList.drop m.maxLag).getD t 0

/-- Element-wise transformation of the raw vector beta through each
latent variable's own prior transform (line of _model building parm). -/
noncomputable def parmOf (m : Cfg) (beta : ℕ → ℝ) : ℕ → ℝ :=
  fun i => m.trans i (beta i)

/-- Filter state: the three arrays lmda, theta, scores, modelled as
functions from positions to reals (np.zeros initialisation gives the
constant-zero functions). -/
structure FSt where
  lmda : ℕ → ℝ
  theta : ℕ → ℝ
  scores : ℕ → ℝ

/-- Zero-initialised state (np.zeros for each of the three arrays). -/
noncomputable def initSt : FSt :=
  { lmda := fun _ => 0, theta := fun _ => 0, scores := fun _ => 0 }

/-- Position read by an index expression a[t-1] at loop time t: numpy
wraps t = 0 to the last position n-1 of the array. -/
def prevIdx (m : Cfg) (t : ℕ) : ℕ := if t = 0 then m.n - 1 else t - 1

/-- np.dot(self.X[t], parm[-2k:-k]), the volatility-regression term. -/
noncomputable def dotVol (m : Cfg) (parm : ℕ → ℝ) (t : ℕ) : ℝ :=
  ∑ j ∈ Finset.range m.k, m.X t j * parm (m.z - 2 * m.k + j)

/-- np.dot(self.X[t], parm[-k:]), the mean-regression term. -/
noncomputable def dotMean (m : Cfg) (parm : ℕ → ℝ) (t : ℕ) : ℝ :=
  ∑ j ∈ Finset.range m.k, m.X t j * parm (m.z - m.k + j)

/-- Accumulation of lmda[t] in the else-branch of the loop body of
_model: starting from 0, the p-loop adds parm[i]*lmda[t-i-1], the q-loop
adds parm[p+j]*scores[t-j-1], the leverage branch adds
parm[-2k-3]*sign(-(Y[t-1]-theta[t-1]))*(scores[t-1]+1), and finally the
volatility-regression dot product is added. -/
noncomputable def lmdaAcc (m : Cfg) (parm : ℕ → ℝ) (s : FSt) (t : ℕ) : ℝ :=
  let a1 := (List.range m.p).foldl (fun acc i => acc + parm i * s.lmda (t - i - 1)) 0
  let a2 := (List.range m.q).foldl (fun acc j => acc + parm (m.p + j) * s.scores (t - j - 1)) a1
  let a3 := if m.leverage then
      a2 + parm (m.z - 2 * m.k - 3) *
        Real.sign (-(m.Yt (prevIdx m t) - s.theta (prevIdx m t))) *
        (s.scores (prevIdx m t) + 1)
    else a2
  a3 + dotVol m parm t

/-- Value written to lmda[t]: the stationary initialisation
parm[-2k]/(1 - np.sum(parm[:p])) for t < max_lag, the recursion
otherwise. -/
noncomputable def lmdaVal (m : Cfg) (parm : ℕ → ℝ) (s : FSt) (t : ℕ) : ℝ :=
  if t < m.maxLag then
    parm (negIdx m.z (2 * m.k)) / (1 - ∑ i ∈ Finset.range m.p, parm i)
  else lmdaAcc m parm s t

/-- Value written to theta[t]: the mean-regression dot product, plus the
GARCH-in-mean term parm[-2k-1]*exp(lmda[t]/2) outside the
initialisation rows. -/
noncomputable def thetaVal (m : Cfg) (parm : ℕ → ℝ) (s : FSt) (t : ℕ) : ℝ :=
  if t < m.maxLag then dotMean m parm t
  else dotMean m parm t + parm (m.z - 2 * m.k - 1) * Real.exp (lmdaVal m parm s t / 2)

/-- Value written to scores[t] (Beta-t score, computed for every t from
the row's own lmda[t] and theta[t]):
((parm[p+q]+1)*(Y[t]-theta[t])^2)/(parm[p+q]*exp(lmda[t]) + (Y[t]-theta[t])^2) - 1. -/
noncomputable def scoreVal (m : Cfg) (parm : ℕ → ℝ) (s : FSt) (t : ℕ) : ℝ :=
  ((parm (m.p + m.q) + 1) * (m.Yt t - thetaVal m parm s t) ^ 2) /
      (parm (m.p + m.q) * Real.exp (lmdaVal m parm s t) +
        (m.Yt t - thetaVal m parm s t) ^ 2) - 1

/-- One iteration of the time loop of _model: writes position t of each
of the three arrays. -/
noncomputable def stepF (m : Cfg) (parm : ℕ → ℝ) (s : FSt) (t : ℕ) : FSt :=
  { lmda := Function.update s.lmda t (lmdaVal m parm s t)
    theta := Function.update s.theta t (thetaVal m parm s t)
    scores := Function.update s.scores t (scoreVal m parm s t) }

/-- State after the first t iterations of the loop of _model. -/
noncomputable def runTo (m : Cfg) (parm : ℕ → ℝ) : ℕ → FSt
  | 0 => initSt
  | t + 1 => stepF m parm (runTo m parm t) t

/-- Final lmda array of the filter, read at position t. -/
noncomputable def lmdaF (m : Cfg) (parm : ℕ → ℝ) (t : ℕ) : ℝ :=
  (runTo m parm m.n).lmda t

/-- Final theta array of the filter, read at position t. -/
noncomputable def thetaF (m : Cfg) (parm : ℕ → ℝ) (t : ℕ) : ℝ :=
  (runTo m parm m.n).theta t

/-- Final scores array of the filter, read at position t. -/
noncomputable def scoresF (m : Cfg) (parm : ℕ → ℝ) (t : ℕ) : ℝ :=
  (runTo m parm m.n).scores t

/-- First component of the return value of _model(beta), as a list. -/
noncomputable def modelLmda (m : Cfg) (beta : ℕ → ℝ) : List ℝ :=
  (List.range m.n).map (lmdaF m (parmOf m beta))

/-- Second component of the return value of _model: Y = data[max_lag:]. -/
noncomputable def modelY (m : Cfg) : List ℝ := m.dataList.drop m.maxLag

/-- Third component of the return value of _model(beta), as a list. -/
noncomputable def modelScores (m : Cfg) (beta : ℕ → ℝ) : List ℝ :=
  (List.range m.n).map (scoresF m (parmOf m beta))

/-- Fourth component of the return value of _model(beta), as a list. -/
noncomputable def modelTheta (m : Cfg) (beta : ℕ → ℝ) : List ℝ :=
  (List.range m.n).map (thetaF m (parmOf m beta))

/-! ## Parameter Layout contract (named segments, from the spec) -/

/-- Leverage coefficient per the Parameter Layout contract: position
p+q of the transformed vector when leverage is active. -/
noncomputable def layoutLev (m : Cfg) (parm : ℕ → ℝ) : ℝ := parm (m.p + m.q)

/-- GARCH-in-mean coefficient per the Parameter Layout contract:
position p+q+1 of the transformed vector, shifted by one when leverage
is active. -/
noncomputable def layoutGim (m : Cfg) (parm : ℕ → ℝ) : ℝ :=
  parm (m.p + m.q + 1 + (if m.leverage then 1 else 0))

/-- Volatility-regression coefficients per the Parameter Layout
contract: the slice parm[-2k:-k], addressed from the end. -/
noncomputable def layoutVol (m : Cfg) (parm : ℕ → ℝ) (j : ℕ) : ℝ :=
  parm (m.z - 2 * m.k + j)

/-- Mean-regression coefficients per the Parameter Layout contract: the
slice parm[-k:], addressed from the end. -/
noncomputable def layoutMean (m : Cfg) (parm : ℕ → ℝ) (j : ℕ) : ℝ :=
  parm (m.z - m.k + j)

/-! ## Basic lemmas about the filter recursion -/

lemma foldl_add_eq_sum (f : ℕ → ℝ) (n : ℕ) :
    ∀ a : ℝ, (List.range n).foldl (fun acc i => acc + f i) a
      = a + ∑ i ∈ Finset.range n, f i := by
  induction n with
  | zero => intro a; simp
  | succ n ih =>
    intro a
    rw [List.range_succ, List.foldl_append, ih, Finset.sum_range_succ]
    simp [add_assoc]

lemma runTo_stable (m : Cfg) (parm : ℕ → ℝ) :
    ∀ s t : ℕ, t < s →
      (runTo m parm s).lmda t = (runTo m parm (t + 1)).lmda t ∧
      (runTo m parm s).theta t = (runTo m parm (t + 1)).theta t ∧
      (runTo m parm s).scores t = (runTo m parm (t + 1)).scores t := by
  intro s
  induction s with
  | zero => intro t ht; exact absurd ht (Nat.not_lt_zero t)
  | succ s ih =>
    intro t ht
    rcases Nat.lt_succ_iff_lt_or_eq.mp ht with h | h
    · have hne : t ≠ s := Nat.ne_of_lt h
      have hl := (ih t h).1
      have hth := (ih t h).2.1
      have hsc := (ih t h).2.2
      refine ⟨?_, ?_, ?_⟩
      · show (stepF m parm (runTo m parm s) s).lmda t = _
        rw [stepF]
        simpa [Function.update_noteq hne] using hl
      · show (stepF m parm (runTo m parm s) s).theta t = _
        rw [stepF]
        simpa [Function.update_noteq hne] using hth
      · show (stepF m parm (runTo m parm s) s).scores t = _
        rw [stepF]
        simpa [Function.update_noteq hne] using hsc
    · subst h
      exact ⟨rfl, rfl, rfl⟩

lemma lmdaF_eq (m : Cfg) (parm : ℕ → ℝ) {t : ℕ} (ht : t < m.n) :
    lmdaF m parm t = lmdaVal m parm (runTo m parm t) t := by
  show (runTo m parm m.n).lmda t = _
  rw [(runTo_stable m parm m.n t ht).1]
  show (stepF m parm (runTo m parm t) t).lmda t = _
  rw [stepF]
  simp

lemma thetaF_eq (m : Cfg) (parm : ℕ → ℝ) {t : ℕ} (ht : t < m.n) :
    thetaF m parm t = thetaVal m parm (runTo m parm t) t := by
  show (runTo m parm m.n).theta t = _
  rw [(runTo_stable m parm m.n t ht).2.1]
  show (stepF m parm (runTo m parm t) t).theta t = _
  rw [stepF]
  simp

lemma scoresF_eq (m : Cfg) (parm : ℕ → ℝ) {t : ℕ} (ht : t < m.n) :
    scoresF m parm t = scoreVal m parm (runTo m parm t) t := by
  show (runTo m parm m.n).scores t = _
  rw [(runTo_stable m parm m.n t ht).2.2]
  show (stepF m parm (runTo m parm t) t).scores t = _
  rw [stepF]
  simp

lemma lmdaF_run (m : Cfg) (parm : ℕ → ℝ) {s t : ℕ} (hs : s < t) (htn : t ≤ m.n) :
    (runTo m parm t).lmda s = lmdaF m parm s := by
  show _ = (runTo m parm m.n).lmda s
  rw [(runTo_stable m parm t s hs).1,
    (runTo_stable m parm m.n s (lt_of_lt_of_le hs htn)).1]

lemma thetaF_run (m : Cfg) (parm : ℕ → ℝ) {s t : ℕ} (hs : s < t) (htn : t ≤ m.n) :
    (runTo m parm t).theta s = thetaF m parm s := by
  show _ = (runTo m parm m.n).theta s
  rw [(runTo_stable m parm t s hs).2.1,
    (runTo_stable m parm m.n s (lt_of_lt_of_le hs htn)).2.1]

lemma scoresF_run (m : Cfg) (parm : ℕ → ℝ) {s t : ℕ} (hs : s < t) (htn : t ≤ m.n) :
    (runTo m parm t).scores s = scoresF m parm s := by
  show _ = (runTo m parm m.n).scores s
  rw [(runTo_stable m parm t s hs).2.2,
    (runTo_stable m parm m.n s (lt_of_lt_of_le hs htn)).2.2]

/-! ## Concrete configuration used by the witnesses -/

/-- Concrete configuration: p = q = k = 1, no leverage, z = 6 latent
variables with identity transforms, three zero observations, zero
design matrix. -/
noncomputable def cfgW : Cfg :=
  { p := 1, q := 1, k := 1, leverage := false, z := 6,
    trans := fun _ x => x, dataList := [0, 0, 0], X := fun _ _ => 0 }

/-- All-zero parameter vector used by the witnesses. -/
noncomputable def parmW : ℕ → ℝ := fun _ => 0

/-! ## Claim C1: the filter recursion for t >= max_lag -/

/-- C1: for every filter call whose transformed parameter vector has the
length prescribed by the Parameter Layout contract, and for every output
index t with max_lag <= t < n (with at least one past row available when
the leverage flag is set), lmda[t] is the GARCH sum plus the score sum
plus the optional leverage term plus the volatility-regression dot
product, and theta[t] is the mean-regression dot product plus the
GARCH-in-mean coefficient times exp(lmda[t]/2), with all coefficients
addressed as the Parameter Layout contract prescribes. -/
theorem c1_filter_recursion (m : Cfg) (parm : ℕ → ℝ) (t : ℕ)
    (hz : m.z = m.p + m.q + 2 + 2 * m.k + (if m.leverage then 1 else 0))
    (hm : m.maxLag ≤ t) (ht : t < m.n)
    (hlev : m.leverage = true → 1 ≤ t) :
    lmdaF m parm t =
      (∑ i ∈ Finset.range m.p, parm i * lmdaF m parm (t - (i + 1)))
        + (∑ j ∈ Finset.range m.q, parm (m.p + j) * scoresF m parm (t - (j + 1)))
        + (if m.leverage then
            layoutLev m parm * Real.sign (-(m.Yt (t - 1) - thetaF m parm (t - 1)))
              * (scoresF m parm (t - 1) + 1)
          else 0)
        + (∑ j ∈ Finset.range m.k, m.X t j * layoutVol m parm j)
    ∧ thetaF m parm t =
      (∑ j ∈ Finset.range m.k, m.X t j * layoutMean m parm j)
        + layoutGim m parm * Real.exp (lmdaF m parm t / 2) := by
  have hpml : m.p ≤ m.maxLag := le_max_left _ _
  have hqml : m.q ≤ m.maxLag := le_max_right _ _
  have hP : ∑ i ∈ Finset.range m.p, parm i * (runTo m parm t).lmda (t - i - 1)
      = ∑ i ∈ Finset.range m.p, parm i * lmdaF m parm (t - (i + 1)) := by
    refine Finset.sum_congr rfl ?_
    intro i hi
    have hi' : i < m.p := Finset.mem_range.mp hi
    have h1 : t - (i + 1) < t := by omega
    rw [show t - i - 1 = t - (i + 1) by omega, lmdaF_run m parm h1 (le_of_lt ht)]
  have hQ : ∑ j ∈ Finset.range m.q, parm (m.p + j) * (runTo m parm t).scores (t - j - 1)
      = ∑ j ∈ Finset.range m.q, parm (m.p + j) * scoresF m parm (t - (j + 1)) := by
    refine Finset.sum_congr rfl ?_
    intro j hj
    have hj' : j < m.q := Finset.mem_range.mp hj
    have h1 : t - (j + 1) < t := by omega
    rw [show t - j - 1 = t - (j + 1) by omega, scoresF_run m parm h1 (le_of_lt ht)]
  constructor
  · rw [lmdaF_eq m parm ht, lmdaVal, if_neg (not_lt.mpr hm)]
    simp only [lmdaAcc]
    rw [foldl_add_eq_sum, foldl_add_eq_sum, hP, hQ]
    cases hL : m.leverage with
    | false =>
      simp only [hL, Bool.false_eq_true, if_false]
      simp only [dotVol, layoutVol]
      ring
    | true =>
      have ht1 : 1 ≤ t := hlev hL
      have hpr : prevIdx m t = t - 1 := by
        unfold prevIdx
        rw [if_neg (by omega)]
      have h1 : t - 1 < t := by omega
      simp only [hL, if_true]
      rw [hpr, thetaF_run m parm h1 (le_of_lt ht), scoresF_run m parm h1 (le_of_lt ht)]
      have hlevidx : m.z - 2 * m.k - 3 = m.p + m.q := by
        simp only [hL, if_true] at hz
        omega
      rw [hlevidx]
      simp only [dotVol, layoutVol, layoutLev]
      ring
  · rw [thetaF_eq m parm ht, thetaVal, if_neg (not_lt.mpr hm), ← lmdaF_eq m parm ht]
    have hgim : m.z - 2 * m.k - 1 = m.p + m.q + 1 + (if m.leverage then 1 else 0) := by
      cases hL : m.leverage with
      | false => simp only [hL, Bool.false_eq_true, if_false] at hz ⊢; omega
      | true => simp only [hL, if_true] at hz ⊢; omega
    simp only [dotMean, layoutMean, layoutGim, hgim]

/-- Witness for c1_filter_recursion at a concrete configuration
(p = q = k = 1, no leverage, all-zero data and parameters, t = 1). -/
theorem c1_filter_recursion_witness :
    (cfgW.z = cfgW.p + cfgW.q + 2 + 2 * cfgW.k + (if cfgW.leverage then 1 else 0)
      ∧ cfgW.maxLag ≤ 1 ∧ 1 < cfgW.n ∧ (cfgW.leverage = true → 1 ≤ 1))
    ∧ (lmdaF cfgW parmW 1 =
        (∑ i ∈ Finset.range cfgW.p, parmW i * lmdaF cfgW parmW (1 - (i + 1)))
          + (∑ j ∈ Finset.range cfgW.q, parmW (cfgW.p + j) * scoresF cfgW parmW (1 - (j + 1)))
          + (if cfgW.leverage then
              layoutLev cfgW parmW * Real.sign (-(cfgW.Yt (1 - 1) - thetaF cfgW parmW (1 - 1)))
                * (scoresF cfgW parmW (1 - 1) + 1)
            else 0)
          + (∑ j ∈ Finset.range cfgW.k, cfgW.X 1 j * layoutVol cfgW parmW j)
      ∧ thetaF cfgW parmW 1 =
        (∑ j ∈ Finset.range cfgW.k, cfgW.X 1 j * layoutMean cfgW parmW j)
          + layoutGim cfgW parmW * Real.exp (lmdaF cfgW parmW 1 / 2)) :=
  ⟨⟨by decide, by decide, by decide, by decide⟩,
    c1_filter_recursion cfgW parmW 1 (by decide) (by decide) (by decide) (by decide)⟩

/-! ## Claim C2: the Beta-t score formula and its bounds -/

lemma betaT_score_bounds (ν E y th : ℝ) (hν : 0 < ν) (hE : 0 < E) :
    -1 ≤ ((ν + 1) * (y - th) ^ 2) / (ν * E + (y - th) ^ 2) - 1 ∧
    ((ν + 1) * (y - th) ^ 2) / (ν * E + (y - th) ^ 2) - 1 ≤ ν ∧
    (((ν + 1) * (y - th) ^ 2) / (ν * E + (y - th) ^ 2) - 1 = -1 ↔ y = th) := by
  have hd : (0:ℝ) ≤ (y - th) ^ 2 := sq_nonneg _
  have hden : 0 < ν * E + (y - th) ^ 2 :=
    add_pos_of_pos_of_nonneg (mul_pos hν hE) hd
  have h1 : 0 ≤ ((ν + 1) * (y - th) ^ 2) / (ν * E + (y - th) ^ 2) :=
    div_nonneg (mul_nonneg (by linarith) hd) hden.le
  have h2 : ((ν + 1) * (y - th) ^ 2) / (ν * E + (y - th) ^ 2) ≤ ν + 1 := by
    rw [div_le_iff₀ hden]
    nlinarith [mul_pos hν hE]
  refine ⟨by linarith, by linarith, ?_⟩
  constructor
  · intro h
    have hzero : ((ν + 1) * (y - th) ^ 2) / (ν * E + (y - th) ^ 2) = 0 := by linarith
    have hnum : (ν + 1) * (y - th) ^ 2 = 0 := by
      rcases div_eq_zero_iff.mp hzero with h0 | h0
      · exact h0
      · exact absurd h0 hden.ne'
    have hd0 : (y - th) ^ 2 = 0 := by
      rcases mul_eq_zero.mp hnum with h0 | h0
      · linarith
      · exact h0
    have : y - th = 0 := by
      exact pow_eq_zero_iff (by norm_num) |>.mp hd0
    exact sub_eq_zero.mp this
  · intro h
    rw [h]
    simp

/-- C2: for every output index t the filter writes
scores[t] = ((df+1)(Y[t]-theta[t])^2)/(df exp(lmda[t]) + (Y[t]-theta[t])^2) - 1
using that row's own lmda and theta (df being the value at position p+q
of the transformed vector, the slot the score update reads); and when
that df value is positive, scores[t] lies in [-1, df] and equals -1
exactly when Y[t] = theta[t]. -/
theorem c2_score_formula_bounds (m : Cfg) (parm : ℕ → ℝ) (t : ℕ) (ht : t < m.n) :
    scoresF m parm t =
      ((parm (m.p + m.q) + 1) * (m.Yt t - thetaF m parm t) ^ 2) /
        (parm (m.p + m.q) * Real.exp (lmdaF m parm t) +
          (m.Yt t - thetaF m parm t) ^ 2) - 1
    ∧ (0 < parm (m.p + m.q) →
        -1 ≤ scoresF m parm t ∧ scoresF m parm t ≤ parm (m.p + m.q) ∧
          (scoresF m parm t = -1 ↔ m.Yt t = thetaF m parm t)) := by
  have hF : scoresF m parm t =
      ((parm (m.p + m.q) + 1) * (m.Yt t - thetaF m parm t) ^ 2) /
        (parm (m.p + m.q) * Real.exp (lmdaF m parm t) +
          (m.Yt t - thetaF m parm t) ^ 2) - 1 := by
    rw [scoresF_eq m parm ht, scoreVal, ← lmdaF_eq m parm ht, ← thetaF_eq m parm ht]
  refine ⟨hF, fun hν => ?_⟩
  have hb := betaT_score_bounds (parm (m.p + m.q)) (Real.exp (lmdaF m parm t))
    (m.Yt t) (thetaF m parm t) hν (Real.exp_pos _)
  rw [hF]
  exact hb

/-- Witness for c2_score_formula_bounds at the concrete configuration,
t = 0. -/
theorem c2_score_formula_bounds_witness :
    0 < cfgW.n
    ∧ (scoresF cfgW parmW 0 =
        ((parmW (cfgW.p + cfgW.q) + 1) * (cfgW.Yt 0 - thetaF cfgW parmW 0) ^ 2) /
          (parmW (cfgW.p + cfgW.q) * Real.exp (lmdaF cfgW parmW 0) +
            (cfgW.Yt 0 - thetaF cfgW parmW 0) ^ 2) - 1
      ∧ (0 < parmW (cfgW.p + cfgW.q) →
          -1 ≤ scoresF cfgW parmW 0 ∧ scoresF cfgW parmW 0 ≤ parmW (cfgW.p + cfgW.q) ∧
            (scoresF cfgW parmW 0 = -1 ↔ cfgW.Yt 0 = thetaF cfgW parmW 0))) :=
  ⟨by decide, c2_score_formula_bounds cfgW parmW 0 (by decide)⟩

/-! ## Claim C3: initialization rows -/

/-- C3: for every output index t < max_lag the filter bypasses the
recursion: lmda[t] is the constant parm[-2k]/(1 - sum(parm[:p])), the
same value for every initialization row, and theta[t] is the
mean-regression dot product alone. -/
theorem c3_initialization (m : Cfg) (parm : ℕ → ℝ) (t : ℕ)
    (ht : t < m.maxLag) (htn : t < m.n) :
    lmdaF m parm t =
      parm (negIdx m.z (2 * m.k)) / (1 - ∑ i ∈ Finset.range m.p, parm i)
    ∧ thetaF m parm t = ∑ j ∈ Finset.range m.k, m.X t j * layoutMean m parm j
    ∧ ∀ s, s < m.maxLag → s < m.n → lmdaF m parm s = lmdaF m parm t := by
  have hconst : ∀ u, u < m.maxLag → u < m.n →
      lmdaF m parm u =
        parm (negIdx m.z (2 * m.k)) / (1 - ∑ i ∈ Finset.range m.p, parm i) := by
    intro u hu hun
    rw [lmdaF_eq m parm hun, lmdaVal, if_pos hu]
  refine ⟨hconst t ht htn, ?_, ?_⟩
  · rw [thetaF_eq m parm htn, thetaVal, if_pos ht]
    simp only [dotMean, layoutMean]
  · intro s hs hsn
    rw [hconst s hs hsn, hconst t ht htn]

/-- Witness for c3_initialization at the concrete configuration, t = 0
(max_lag = 1). -/
theorem c3_initialization_witness :
    (0 < cfgW.maxLag ∧ 0 < cfgW.n)
    ∧ (lmdaF cfgW parmW 0 =
        parmW (negIdx cfgW.z (2 * cfgW.k)) / (1 - ∑ i ∈ Finset.range cfgW.p, parmW i)
      ∧ thetaF cfgW parmW 0 = ∑ j ∈ Finset.range cfgW.k, cfgW.X 0 j * layoutMean cfgW parmW j
      ∧ ∀ s, s < cfgW.maxLag → s < cfgW.n → lmdaF cfgW parmW s = lmdaF cfgW parmW 0) :=
  ⟨⟨by decide, by decide⟩, c3_initialization cfgW parmW 0 (by decide) (by decide)⟩

/-! ## Claim C4: output lengths -/

lemma mapRange_getD (f : ℕ → ℝ) {n t : ℕ} (ht : t < n) :
    ((List.range n).map f).getD t 0 = f t := by
  rw [List.getD_eq_getElem?_getD, List.getElem?_map, List.getElem?_range ht]
  rfl

lemma listSumRange (f : ℕ → ℝ) (n : ℕ) :
    ((List.range n).map f).sum = ∑ i ∈ Finset.range n, f i := by
  induction n with
  | zero => simp
  | succ n ih =>
    rw [List.range_succ, List.map_append, List.sum_append, Finset.sum_range_succ, ih]
    simp

/-- C4: for any lag orders and any observation series longer than
max(p,q), all four arrays returned by _model have length
N - max(p,q). -/
theorem c4_output_lengths (m : Cfg) (beta : ℕ → ℝ)
    (hN : max m.p m.q < m.dataList.length) :
    (modelLmda m beta).length = m.dataList.length - max m.p m.q
    ∧ (modelY m).length = m.dataList.length - max m.p m.q
    ∧ (modelScores m beta).length = m.dataList.length - max m.p m.q
    ∧ (modelTheta m beta).length = m.dataList.length - max m.p m.q := by
  refine ⟨?_, ?_, ?_, ?_⟩ <;>
    simp [modelLmda, modelY, modelScores, modelTheta, Cfg.n, Cfg.maxLag]

/-- Witness for c4_output_lengths at the concrete configuration
(N = 3 observations, max lag 1). -/
theorem c4_output_lengths_witness :
    max cfgW.p cfgW.q < cfgW.dataList.length
    ∧ ((modelLmda cfgW parmW).length = cfgW.dataList.length - max cfgW.p cfgW.q
      ∧ (modelY cfgW).length = cfgW.dataList.length - max cfgW.p cfgW.q
      ∧ (modelScores cfgW parmW).length = cfgW.dataList.length - max cfgW.p cfgW.q
      ∧ (modelTheta cfgW parmW).length = cfgW.dataList.length - max cfgW.p cfgW.q) :=
  ⟨by decide, c4_output_lengths cfgW parmW (by decide)⟩

/-! ## Claim C5: the negative log-likelihood -/

/-- Modelled from the spec: logpdf_StudentT, the log-density of the
Student-t distribution with degrees of freedom, location and scale, which
the source obtains from the external collaborator scipy.stats.t.logpdf
(not part of this repository). -/
noncomputable def studentTLogpdf (x ν loc scale : ℝ) : ℝ :=
  Real.log (Real.Gamma ((ν + 1) / 2)) - Real.log (Real.Gamma (ν / 2))
    - Real.log (Real.sqrt (ν * Real.pi)) - Real.log scale
    - ((ν + 1) / 2) * Real.log (1 + ((x - loc) / scale) ^ 2 / ν)

/-- neg_loglik(beta): the filter is run on beta, and the Student-t
log-density is evaluated element-wise over the returned arrays with
df transformed from slot beta[-2k-2], loc theta and scale
exp(lmda/2); the negated np.sum is returned. -/
noncomputable def negLoglik (m : Cfg) (beta : ℕ → ℝ) : ℝ :=
  -(((List.range (modelY m).length).map (fun t =>
      studentTLogpdf ((modelY m).getD t 0)
        (m.trans (m.z - 2 * m.k - 2) (beta (m.z - 2 * m.k - 2)))
        ((modelTheta m beta).getD t 0)
        (Real.exp ((modelLmda m beta).getD t 0 / 2)))).sum)

/-- C5: neg_loglik(beta) is the negated sum over t of the Student-t
log-density of Y[t] with degrees of freedom transformed from slot
-(2k)-2 of beta, location theta[t] and scale exp(lmda[t]/2), where lmda,
Y and theta are the filter outputs for the same beta. -/
theorem c5_negloglik (m : Cfg) (beta : ℕ → ℝ) :
    negLoglik m beta =
      -(∑ t ∈ Finset.range m.n,
          studentTLogpdf (m.Yt t)
            (m.trans (m.z - 2 * m.k - 2) (beta (m.z - 2 * m.k - 2)))
            (thetaF m (parmOf m beta) t)
            (Real.exp (lmdaF m (parmOf m beta) t / 2))) := by
  have hlen : (modelY m).length = m.n := by
    simp [modelY, Cfg.n]
  unfold negLoglik
  rw [hlen, listSumRange]
  congr 1
  refine Finset.sum_congr rfl ?_
  intro t htmem
  have ht' : t < m.n := Finset.mem_range.mp htmem
  simp only [modelTheta, modelLmda]
  rw [mapRange_getD (thetaF m (parmOf m beta)) ht',
    mapRange_getD (lmdaF m (parmOf m beta)) ht']
  rfl

/-! ## Claim C6: the deterministic forecast (_mean_prediction) -/

/-- Read of a numpy array at negative index -(j+1): position
length-(j+1) from the front. -/
noncomputable def endGet (l : List ℝ) (j : ℕ) : ℝ := l.getD (l.length - (j + 1)) 0

/-- Accumulation of new_lambda_value over the GARCH and score loops of
the forecast functions: starting from 0, if p is nonzero the p-loop adds
t_params[j]*lmda_exp[-j-1], and if q is nonzero the q-loop adds
t_params[p+k]*scores_exp[-k-1]. -/
noncomputable def baseLambda (m : Cfg) (tp : ℕ → ℝ) (lm sc : List ℝ) : ℝ :=
  let a0 : ℝ := 0
  let a1 := if m.p ≠ 0 then
      (List.range m.p).foldl (fun acc j => acc + tp j * endGet lm j) a0
    else a0
  if m.q ≠ 0 then
    (List.range m.q).foldl (fun acc j => acc + tp (m.p + j) * endGet sc j) a1
  else a1

/-- new_lambda_value of _mean_prediction at step t: the GARCH/score
accumulation plus np.dot(X_oos[t], t_params[-2k:-k]); no leverage term
appears in this function. -/
noncomputable def newLambdaVal (m : Cfg) (tp : ℕ → ℝ) (Xoos : ℕ → ℕ → ℝ)
    (lm sc : List ℝ) (t : ℕ) : ℝ :=
  baseLambda m tp lm sc + ∑ j ∈ Finset.range m.k, Xoos t j * tp (m.z - 2 * m.k + j)

/-- new_theta_value at step t:
np.dot(X_oos[t], t_params[-k:]) + t_params[-2k-1]*exp(new_lambda_value/2). -/
noncomputable def newThetaVal (m : Cfg) (tp : ℕ → ℝ) (Xoos : ℕ → ℕ → ℝ)
    (nl : ℝ) (t : ℕ) : ℝ :=
  (∑ j ∈ Finset.range m.k, Xoos t j * tp (m.z - m.k + j))
    + tp (m.z - 2 * m.k - 1) * Real.exp (nl / 2)

/-- State of the extension loop of _mean_prediction after t steps: the
triple (lmda_exp, scores_exp, Y_exp), seeded with copies of the inputs;
each step appends new_lambda_value, the zero expected score, and
new_theta_value respectively. -/
noncomputable def meanAux (m : Cfg) (tp : ℕ → ℝ) (Xoos : ℕ → ℕ → ℝ)
    (lmda scores Y : List ℝ) : ℕ → List ℝ × List ℝ × List ℝ
  | 0 => (lmda, scores, Y)
  | t + 1 =>
    let st := meanAux m tp Xoos lmda scores Y t
    let nl := newLambdaVal m tp Xoos st.1 st.2.1 t
    let nth := newThetaVal m tp Xoos nl t
    (st.1 ++ [nl], st.2.1 ++ [0], st.2.2 ++ [nth])

/-- Return value of _mean_prediction: the extended lmda_exp array after
h steps. -/
noncomputable def meanPredL (m : Cfg) (tp : ℕ → ℝ) (Xoos : ℕ → ℕ → ℝ)
    (lmda scores Y : List ℝ) (h : ℕ) : List ℝ :=
  (meanAux m tp Xoos lmda scores Y h).1

lemma meanAux_len (m : Cfg) (tp : ℕ → ℝ) (Xoos : ℕ → ℕ → ℝ)
    (lmda scores Y : List ℝ) :
    ∀ t, (meanAux m tp Xoos lmda scores Y t).1.length = lmda.length + t
      ∧ (meanAux m tp Xoos lmda scores Y t).2.1.length = scores.length + t := by
  intro t
  induction t with
  | zero => exact ⟨rfl, rfl⟩
  | succ t ih =>
    refine ⟨?_, ?_⟩ <;> simp [meanAux, ih.1, ih.2] <;> omega

lemma meanAux_scores_eq (m : Cfg) (tp : ℕ → ℝ) (Xoos : ℕ → ℕ → ℝ)
    (lmda scores Y : List ℝ) :
    ∀ t, (meanAux m tp Xoos lmda scores Y t).2.1 = scores ++ List.replicate t 0 := by
  intro t
  induction t with
  | zero => simp [meanAux]
  | succ t ih =>
    show (meanAux m tp Xoos lmda scores Y t).2.1 ++ [0] = _
    rw [ih, List.append_assoc, ← List.replicate_succ' t (0:ℝ)]

lemma meanAux_getD_stable (m : Cfg) (tp : ℕ → ℝ) (Xoos : ℕ → ℕ → ℝ)
    (lmda scores Y : List ℝ) :
    ∀ u t, t ≤ u → ∀ pos, pos < lmda.length + t →
      (meanAux m tp Xoos lmda scores Y u).1.getD pos 0
        = (meanAux m tp Xoos lmda scores Y t).1.getD pos 0 := by
  intro u
  induction u with
  | zero =>
    intro t htu pos _
    have : t = 0 := Nat.le_zero.mp htu
    rw [this]
  | succ u ih =>
    intro t htu pos hpos
    rcases Nat.lt_succ_iff_lt_or_eq.mp (Nat.lt_succ_of_le htu) with h | h
    · have ht : t ≤ u := Nat.lt_succ_iff.mp h
      have hlt : pos < (meanAux m tp Xoos lmda scores Y u).1.length := by
        rw [(meanAux_len m tp Xoos lmda scores Y u).1]
        omega
      show ((meanAux m tp Xoos lmda scores Y u).1 ++ _).getD pos 0 = _
      rw [List.getD_append _ _ _ _ hlt]
      exact ih t ht pos hpos
    · rw [h]

/-- Entry appended at step t, read from the final array. -/
lemma meanAux_entry (m : Cfg) (tp : ℕ → ℝ) (Xoos : ℕ → ℕ → ℝ)
    (lmda scores Y : List ℝ) {t h : ℕ} (hth : t < h) :
    (meanPredL m tp Xoos lmda scores Y h).getD (lmda.length + t) 0
      = newLambdaVal m tp Xoos (meanAux m tp Xoos lmda scores Y t).1
          (meanAux m tp Xoos lmda scores Y t).2.1 t := by
  unfold meanPredL
  rw [meanAux_getD_stable m tp Xoos lmda scores Y h (t + 1) hth (lmda.length + t) (by omega)]
  show ((meanAux m tp Xoos lmda scores Y t).1 ++ _).getD (lmda.length + t) 0 = _
  rw [List.getD_append_right _ _ _ _ (by rw [(meanAux_len m tp Xoos lmda scores Y t).1])]
  rw [(meanAux_len m tp Xoos lmda scores Y t).1]
  simp

lemma newLambdaVal_sum (m : Cfg) (tp : ℕ → ℝ) (Xoos : ℕ → ℕ → ℝ)
    (lm sc : List ℝ) (t : ℕ) :
    newLambdaVal m tp Xoos lm sc t
      = (∑ j ∈ Finset.range m.p, tp j * endGet lm j)
        + (∑ j ∈ Finset.range m.q, tp (m.p + j) * endGet sc j)
        + ∑ j ∈ Finset.range m.k, Xoos t j * tp (m.z - 2 * m.k + j) := by
  simp only [newLambdaVal, baseLambda]
  by_cases hp : m.p = 0 <;> by_cases hq : m.q = 0 <;>
    simp [hp, hq, foldl_add_eq_sum] <;> ring

lemma repGetD (n i : ℕ) : (List.replicate n (0:ℝ)).getD i 0 = 0 := by
  rw [List.getD_eq_getElem?_getD, List.getElem?_replicate]
  split <;> rfl

lemma appendRep_getD (sc : List ℝ) {t u pos : ℕ} (htu : t ≤ u)
    (hpos : pos < sc.length + t) :
    (sc ++ List.replicate t 0).getD pos 0 = (sc ++ List.replicate u 0).getD pos 0 := by
  by_cases hs : pos < sc.length
  · rw [List.getD_append _ _ _ _ hs, List.getD_append _ _ _ _ hs]
  · push_neg at hs
    rw [List.getD_append_right _ _ _ _ hs, List.getD_append_right _ _ _ _ hs,
      repGetD, repGetD]

/-- C6: _mean_prediction returns an array of length len(lmda)+h whose
first len(lmda) entries are the input lmda unchanged; the appended score
at every step is exactly 0; each appended lambda entry follows the
GARCH/score recursion over the extended arrays plus the
volatility-regression term, with no leverage contribution; and for
h = 0 the input lmda is returned unchanged. -/
theorem c6_mean_prediction (m : Cfg) (tp : ℕ → ℝ) (Xoos : ℕ → ℕ → ℝ)
    (lmda scores Y : List ℝ) (h : ℕ)
    (hp : m.p ≤ lmda.length) (hq : m.q ≤ scores.length) :
    (meanPredL m tp Xoos lmda scores Y h).length = lmda.length + h
    ∧ (meanPredL m tp Xoos lmda scores Y h).take lmda.length = lmda
    ∧ (meanAux m tp Xoos lmda scores Y h).2.1 = scores ++ List.replicate h 0
    ∧ (∀ t, t < h →
        (meanPredL m tp Xoos lmda scores Y h).getD (lmda.length + t) 0 =
          (∑ j ∈ Finset.range m.p, tp j *
            (meanPredL m tp Xoos lmda scores Y h).getD (lmda.length + t - (j + 1)) 0)
          + (∑ j ∈ Finset.range m.q, tp (m.p + j) *
              (scores ++ List.replicate h 0).getD (scores.length + t - (j + 1)) 0)
          + ∑ j ∈ Finset.range m.k, Xoos t j * layoutVol m tp j)
    ∧ meanPredL m tp Xoos lmda scores Y 0 = lmda := by
  refine ⟨(meanAux_len m tp Xoos lmda scores Y h).1, ?_, meanAux_scores_eq m tp Xoos lmda scores Y h, ?_, rfl⟩
  · show (meanAux m tp Xoos lmda scores Y h).1.take lmda.length = lmda
    induction h with
    | zero => exact List.take_length lmda
    | succ h ih =>
      show ((meanAux m tp Xoos lmda scores Y h).1 ++ _).take lmda.length = lmda
      rw [List.take_append_of_le_length
        (by rw [(meanAux_len m tp Xoos lmda scores Y h).1]; omega)]
      exact ih
  · intro t hth
    rw [meanAux_entry m tp Xoos lmda scores Y hth, newLambdaVal_sum]
    have hlmE : ∑ j ∈ Finset.range m.p,
        tp j * endGet (meanAux m tp Xoos lmda scores Y t).1 j
        = ∑ j ∈ Finset.range m.p, tp j *
          (meanPredL m tp Xoos lmda scores Y h).getD (lmda.length + t - (j + 1)) 0 := by
      refine Finset.sum_congr rfl ?_
      intro j hj
      have hj' : j < m.p := Finset.mem_range.mp hj
      unfold endGet
      rw [(meanAux_len m tp Xoos lmda scores Y t).1]
      unfold meanPredL
      rw [meanAux_getD_stable m tp Xoos lmda scores Y h t (le_of_lt hth)
        (lmda.length + t - (j + 1)) (by omega)]
    have hscE : ∑ j ∈ Finset.range m.q,
        tp (m.p + j) * endGet (meanAux m tp Xoos lmda scores Y t).2.1 j
        = ∑ j ∈ Finset.range m.q, tp (m.p + j) *
          (scores ++ List.replicate h 0).getD (scores.length + t - (j + 1)) 0 := by
      refine Finset.sum_congr rfl ?_
      intro j hj
      have hj' : j < m.q := Finset.mem_range.mp hj
      unfold endGet
      rw [(meanAux_len m tp Xoos lmda scores Y t).2, meanAux_scores_eq m tp Xoos lmda scores Y t,
        appendRep_getD scores (le_of_lt hth) (by omega)]
    rw [hlmE, hscE]
    rfl

/-- Witness for c6_mean_prediction at the concrete configuration with
one-element seed arrays and horizon 2. -/
theorem c6_mean_prediction_witness :
    (cfgW.p ≤ [(0:ℝ)].length ∧ cfgW.q ≤ [(0:ℝ)].length)
    ∧ ((meanPredL cfgW parmW cfgW.X [0] [0] [0] 2).length = [(0:ℝ)].length + 2
      ∧ (meanPredL cfgW parmW cfgW.X [0] [0] [0] 2).take [(0:ℝ)].length = [0]
      ∧ (meanAux cfgW parmW cfgW.X [0] [0] [0] 2).2.1 = [0] ++ List.replicate 2 0
      ∧ (∀ t, t < 2 →
          (meanPredL cfgW parmW cfgW.X [0] [0] [0] 2).getD ([(0:ℝ)].length + t) 0 =
            (∑ j ∈ Finset.range cfgW.p, parmW j *
              (meanPredL cfgW parmW cfgW.X [0] [0] [0] 2).getD ([(0:ℝ)].length + t - (j + 1)) 0)
            + (∑ j ∈ Finset.range cfgW.q, parmW (cfgW.p + j) *
                ([(0:ℝ)] ++ List.replicate 2 0).getD ([(0:ℝ)].length + t - (j + 1)) 0)
            + ∑ j ∈ Finset.range cfgW.k, cfgW.X t j * layoutVol cfgW parmW j)
      ∧ meanPredL cfgW parmW cfgW.X [0] [0] [0] 0 = [0]) :=
  ⟨⟨by decide, by decide⟩,
    c6_mean_prediction cfgW parmW cfgW.X [0] [0] [0] 2 (by decide) (by decide)⟩

/-! ## Claim C7: the stochastic forecast (_sim_prediction) -/

/-- One iteration of the inner loop of _sim_prediction: the GARCH/score
accumulation; then, when leverage is set, the leverage term computed
from Y_exp[-1], the variable new_theta_value and scores_exp[-1] — this
variable is modelled as an optional value which is none until its first
assignment, and reading it while none is the UnboundLocalError the
interpreter raises there; then the volatility-regression term; then the
appends of new_lambda_value, of the historical score drawn at index dS,
and of the historical observation drawn at index dY. -/
noncomputable def simStep (m : Cfg) (tp : ℕ → ℝ) (Xoos : ℕ → ℕ → ℝ)
    (histS histY : List ℝ) (dS dY : ℕ)
    (lm sc yy : List ℝ) (thv : Option ℝ) (t : ℕ) :
    Option (List ℝ × List ℝ × List ℝ × ℝ) :=
  let base := baseLambda m tp lm sc
  let withLev : Option ℝ :=
    if m.leverage then
      match thv with
      | none => none
      | some th =>
        some (base + tp (m.p + m.q) * Real.sign (-(endGet yy 0 - th)) * (endGet sc 0 + 1))
    else some base
  match withLev with
  | none => none
  | some nl0 =>
    let nl := nl0 + ∑ j ∈ Finset.range m.k, Xoos t j * tp (m.z - 2 * m.k + j)
    let nth := newThetaVal m tp Xoos nl t
    some (lm ++ [nl], sc ++ [histS.getD dS 0], yy ++ [histY.getD dY 0], nth)

/-- State of path pathIdx of _sim_prediction after t inner steps: the
extended arrays seeded with copies of the inputs, plus the
new_theta_value variable carried in from the previous path (the
variable's scope is the whole function, not one path). The draw oracles
dS and dY record the indices np.random.randint produced for each
(path, step). -/
noncomputable def simPathAux (m : Cfg) (tp : ℕ → ℝ) (Xoos : ℕ → ℕ → ℝ)
    (lmda scores Y : List ℝ) (dS dY : ℕ → ℕ → ℕ) (pathIdx : ℕ) (thv0 : Option ℝ) :
    ℕ → Option (List ℝ × List ℝ × List ℝ × Option ℝ)
  | 0 => some (lmda, scores, Y, thv0)
  | t + 1 =>
    match simPathAux m tp Xoos lmda scores Y dS dY pathIdx thv0 t with
    | none => none
    | some (lm, sc, yy, thv) =>
      match simStep m tp Xoos scores Y (dS pathIdx t) (dY pathIdx t) lm sc yy thv t with
      | none => none
      | some (lm2, sc2, yy2, nth) => some (lm2, sc2, yy2, some nth)

/-- The outer loop of _sim_prediction over the first n paths: collects
the rows lmda_exp[-h:] written into sim_vector and threads the
new_theta_value variable across paths. -/
noncomputable def simAllAux (m : Cfg) (tp : ℕ → ℝ) (Xoos : ℕ → ℕ → ℝ)
    (lmda scores Y : List ℝ) (dS dY : ℕ → ℕ → ℕ) (h : ℕ) :
    ℕ → Option (List (List ℝ) × Option ℝ)
  | 0 => some ([], none)
  | n + 1 =>
    match simAllAux m tp Xoos lmda scores Y dS dY h n with
    | none => none
    | some (rows, thv) =>
      match simPathAux m tp Xoos lmda scores Y dS dY n thv h with
      | none => none
      | some (lm, _, _, thv2) => some (rows ++ [lm.drop (lm.length - h)], thv2)

/-- Return value of _sim_prediction: np.transpose(sim_vector), the
h x simulations matrix, or none when the run raises. -/
noncomputable def simPred (m : Cfg) (tp : ℕ → ℝ) (Xoos : ℕ → ℕ → ℝ)
    (lmda scores Y : List ℝ) (dS dY : ℕ → ℕ → ℕ) (h sims : ℕ) :
    Option (List (List ℝ)) :=
  match simAllAux m tp Xoos lmda scores Y dS dY h sims with
  | none => none
  | some (rows, _) => some ((List.range h).map (fun i => rows.map (fun r => r.getD i 0)))

/-- Concrete configuration with the leverage flag set (p = q = k = 1,
z = 7 as after add_leverage). -/
noncomputable def cfgL : Cfg := { cfgW with leverage := true, z := 7 }

/-- C7 fails on the code: with leverage enabled, the very first
simulated step of the very first path reads new_theta_value before any
assignment to it, so _sim_prediction raises instead of producing the
h x simulations matrix of independent bootstrap paths the claim
describes; the embedding returns none at the failing input. -/
theorem c7_sim_prediction_unbound_theta :
    simPred cfgL parmW cfgL.X [0] [0] [0] (fun _ _ => 0) (fun _ _ => 0) 1 1 = none := by
  rfl

/-! ## Claim C8: the latent-variable layout after add_leverage -/

/-- C8 fails on the code: for p = q = k = 1, add_leverage produces the
latent-variable list [p(1), q(1), v, Leverage, v, Returns Constant,
GARCH-M]: position p+q holds v rather than the Leverage Term, the slice
at positions [-2k:-k] holds Returns Constant rather than the
volatility-regression coefficient, and the trailing slice [-k:] holds
GARCH-M rather than the mean-regression coefficient. -/
theorem c8_add_leverage_layout :
    (addLeverage (mkModel 1 1 1)).zList =
      [ZKind.garch 0, ZKind.score 0, ZKind.v, ZKind.leverageT, ZKind.v,
        ZKind.returnsConst, ZKind.garchM]
    ∧ (addLeverage (mkModel 1 1 1)).zList.getD
        ((mkModel 1 1 1).p + (mkModel 1 1 1).q) ZKind.garchM ≠ ZKind.leverageT
    ∧ ((addLeverage (mkModel 1 1 1)).zList.drop
        ((addLeverage (mkModel 1 1 1)).zList.length - 2 * 1)).take 1 ≠ [ZKind.volBeta 0]
    ∧ (addLeverage (mkModel 1 1 1)).zList.drop
        ((addLeverage (mkModel 1 1 1)).zList.length - 1) ≠ [ZKind.retBeta 0] := by
  decide

/-! ## Claim C9: estimation guards of predict, plot_predict, plot_fit -/

/-- Model object as seen by the user-facing entry points: the filter
configuration, the estimated flag of the latent-variable registry
(Modelled from the spec: the registry lives in the tsm base class, which
is an external collaborator here), the current latent-variable values
returned by get_z_values, and the transformed values returned by
transform_z. -/
structure ModelObj where
  cfg : Cfg
  estimated : Bool
  zvals : ℕ → ℝ
  tz : ℕ → ℝ

/-- predict(h): raises unless latent variables have been estimated;
otherwise runs the filter at the current latent-variable values, extends
it with _mean_prediction and returns exp of half of the last h values.
The model object is returned alongside the result: the method assigns to
no attribute, so the returned state is the input state on both paths. -/
noncomputable def predictRun (mo : ModelObj) (h : ℕ) (Xoos : ℕ → ℕ → ℝ) :
    Except String (List ℝ) × ModelObj :=
  if mo.estimated = false then (Except.error "No latent variables estimated!", mo)
  else
    let lmda := modelLmda mo.cfg mo.zvals
    let scores := modelScores mo.cfg mo.zvals
    let yy := modelY mo.cfg
    let mv := meanPredL mo.cfg mo.tz Xoos lmda scores yy h
    (Except.ok ((mv.drop (mv.length - h)).map (fun x => Real.exp (x / 2))), mo)

/-- plot_fit: raises unless estimated; otherwise computes the absolute
demeaned values and the conditional-volatility series it plots (the
plotting itself is an external collaborator). -/
noncomputable def plotFitRun (mo : ModelObj) :
    Except String (List ℝ × List ℝ) × ModelObj :=
  if mo.estimated = false then (Except.error "No latent variables estimated!", mo)
  else
    let lmda := modelLmda mo.cfg mo.zvals
    let yy := modelY mo.cfg
    let theta := modelTheta mo.cfg mo.zvals
    (Except.ok ((List.range mo.cfg.n).map (fun t => |yy.getD t 0 - theta.getD t 0|),
      lmda.map (fun x => Real.exp (x / 2))), mo)

/-- plot_predict: raises unless estimated; otherwise computes the
deterministic mean path and the 15000-path bootstrap simulation matrix
that it summarizes and plots. -/
noncomputable def plotPredictRun (mo : ModelObj) (h : ℕ) (Xoos : ℕ → ℕ → ℝ)
    (dS dY : ℕ → ℕ → ℕ) :
    Except String (List ℝ × Option (List (List ℝ))) × ModelObj :=
  if mo.estimated = false then (Except.error "No latent variables estimated!", mo)
  else
    let lmda := modelLmda mo.cfg mo.zvals
    let scores := modelScores mo.cfg mo.zvals
    let yy := modelY mo.cfg
    (Except.ok (meanPredL mo.cfg mo.tz Xoos lmda scores yy h,
      simPred mo.cfg mo.tz Xoos lmda scores yy dS dY h 15000), mo)

/-- C9: before latent variables have been estimated, predict,
plot_predict and plot_fit each raise immediately, and each leaves the
model object unchanged (the failure is fatal only to the requested
operation). -/
theorem c9_not_estimated_guard (mo : ModelObj) (h : ℕ) (Xoos : ℕ → ℕ → ℝ)
    (dS dY : ℕ → ℕ → ℕ) (hest : mo.estimated = false) :
    predictRun mo h Xoos = (Except.error "No latent variables estimated!", mo)
    ∧ plotPredictRun mo h Xoos dS dY
        = (Except.error "No latent variables estimated!", mo)
    ∧ plotFitRun mo = (Except.error "No latent variables estimated!", mo) := by
  refine ⟨?_, ?_, ?_⟩ <;> simp [predictRun, plotPredictRun, plotFitRun, hest]

/-- Concrete unestimated model object for the witness. -/
noncomputable def moW : ModelObj :=
  { cfg := cfgW, estimated := false, zvals := parmW, tz := parmW }

/-- Witness for c9_not_estimated_guard at the concrete unestimated
model object. -/
theorem c9_not_estimated_guard_witness :
    moW.estimated = false
    ∧ (predictRun moW 1 cfgW.X = (Except.error "No latent variables estimated!", moW)
      ∧ plotPredictRun moW 1 cfgW.X (fun _ _ => 0) (fun _ _ => 0)
          = (Except.error "No latent variables estimated!", moW)
      ∧ plotFitRun moW = (Except.error "No latent variables estimated!", moW)) :=
  ⟨rfl, c9_not_estimated_guard moW 1 cfgW.X (fun _ _ => 0) (fun _ _ => 0) rfl⟩

/-! ## Claim C10: the forecast functions do not mutate their inputs -/

/-- Array store: numpy arrays live at numbered cells; next is the first
unused cell. Fresh arrays (copies, and the fresh arrays returned by
np.append) are placed at next. -/
structure Heap where
  arr : ℕ → List ℝ
  next : ℕ

/-- Allocation of a fresh array holding v; returns the new store and the
cell of the fresh array. -/
noncomputable def halloc (hp : Heap) (v : List ℝ) : Heap × ℕ :=
  ({ arr := Function.update hp.arr hp.next v, next := hp.next + 1 }, hp.next)

/-- Store extension: every cell allocated before stays untouched. -/
def HExt (a b : Heap) : Prop :=
  a.next ≤ b.next ∧ ∀ i, i < a.next → b.arr i = a.arr i

lemma hext_refl (a : Heap) : HExt a a := ⟨le_refl _, fun _ _ => rfl⟩

lemma hext_trans {a b c : Heap} (h1 : HExt a b) (h2 : HExt b c) : HExt a c :=
  ⟨le_trans h1.1 h2.1, fun i hi => by
    rw [h2.2 i (lt_of_lt_of_le hi h1.1), h1.2 i hi]⟩

lemma halloc_hext (hp : Heap) (v : List ℝ) : HExt hp (halloc hp v).1 :=
  ⟨Nat.le_succ _, fun i hi => Function.update_noteq (by omega) _ _⟩

lemma foldl_hext {σ : Type} (g : Heap × σ → ℕ → Heap × σ)
    (hg : ∀ st t, HExt st.1 (g st t).1) :
    ∀ (l : List ℕ) (st : Heap × σ), HExt st.1 ((l.foldl g st).1) := by
  intro l
  induction l with
  | nil => intro st; exact hext_refl _
  | cons x xs ih =>
    intro st
    exact hext_trans (hg st x) (ih (g st x))

/-- One iteration of the loop of _mean_prediction over the array store:
reads the three working arrays, computes new_lambda_value and
new_theta_value, and rebinds each working variable to a freshly
allocated extended array (np.append returns a new array). -/
noncomputable def meanHeapStep (m : Cfg) (tp : ℕ → ℝ) (Xoos : ℕ → ℕ → ℝ)
    (st : Heap × ℕ × ℕ × ℕ) (t : ℕ) : Heap × ℕ × ℕ × ℕ :=
  let hp := st.1
  let lm := hp.arr st.2.1
  let sc := hp.arr st.2.2.1
  let yy := hp.arr st.2.2.2
  let nl := newLambdaVal m tp Xoos lm sc t
  let nth := newThetaVal m tp Xoos nl t
  let r1 := halloc hp (lm ++ [nl])
  let r2 := halloc r1.1 (sc ++ [0])
  let r3 := halloc r2.1 (yy ++ [nth])
  (r3.1, r1.2, r2.2, r3.2)

/-- Copy of the three input arrays into fresh cells: lmda.copy(),
scores.copy(), Y.copy() in source order. Returns the new store and the
three fresh cells. -/
noncomputable def copy3 (hp : Heap) (iL iS iY : ℕ) : Heap × ℕ × ℕ × ℕ :=
  let c1 := halloc hp (hp.arr iL)
  let c2 := halloc c1.1 (c1.1.arr iS)
  let c3 := halloc c2.1 (c2.1.arr iY)
  (c3.1, c1.2, c2.2, c3.2)

/-- _mean_prediction over the array store: copies the three inputs into
fresh cells, runs the loop on the copies, and returns the final store
together with the cell of the extended lambda path. -/
noncomputable def meanPredHeap (m : Cfg) (tp : ℕ → ℝ) (Xoos : ℕ → ℕ → ℝ)
    (hp0 : Heap) (iL iS iY : ℕ) (h : ℕ) : Heap × ℕ :=
  let res := (List.range h).foldl (meanHeapStep m tp Xoos) (copy3 hp0 iL iS iY)
  (res.1, res.2.1)

/-- One iteration of the inner loop of _sim_prediction over the array
store; a raise (none) stops all further allocation. -/
noncomputable def simHeapStep (m : Cfg) (tp : ℕ → ℝ) (Xoos : ℕ → ℕ → ℝ)
    (histS histY : List ℝ) (dS dY : ℕ → ℕ → ℕ) (pathIdx : ℕ)
    (st : Heap × Option ((ℕ × ℕ × ℕ) × Option ℝ)) (t : ℕ) :
    Heap × Option ((ℕ × ℕ × ℕ) × Option ℝ) :=
  match st with
  | (hp, none) => (hp, none)
  | (hp, some (ids, thv)) =>
    match simStep m tp Xoos histS histY (dS pathIdx t) (dY pathIdx t)
        (hp.arr ids.1) (hp.arr ids.2.1) (hp.arr ids.2.2) thv t with
    | none => (hp, none)
    | some (lm2, sc2, yy2, nth) =>
      let r1 := halloc hp lm2
      let r2 := halloc r1.1 sc2
      let r3 := halloc r2.1 yy2
      (r3.1, some ((r1.2, r2.2, r3.2), some nth))

/-- One path of _sim_prediction over the array store: copies the three
inputs into fresh cells, runs the inner loop, and on success reads the
row lmda_exp[-h:]. -/
noncomputable def simHeapPath (m : Cfg) (tp : ℕ → ℝ) (Xoos : ℕ → ℕ → ℝ)
    (histS histY : List ℝ) (dS dY : ℕ → ℕ → ℕ) (hp : Heap)
    (iL iS iY pathIdx h : ℕ) (thv : Option ℝ) :
    Heap × Option (List ℝ × Option ℝ) :=
  match (List.range h).foldl (simHeapStep m tp Xoos histS histY dS dY pathIdx)
      ((copy3 hp iL iS iY).1, some ((copy3 hp iL iS iY).2, thv)) with
  | (hp2, none) => (hp2, none)
  | (hp2, some (ids, thv2)) =>
    (hp2, some ((hp2.arr ids.1).drop ((hp2.arr ids.1).length - h), thv2))

/-- The outer loop of _sim_prediction over the array store, across the
first n paths. -/
noncomputable def simHeapAll (m : Cfg) (tp : ℕ → ℝ) (Xoos : ℕ → ℕ → ℝ)
    (dS dY : ℕ → ℕ → ℕ) (hp : Heap) (iL iS iY h : ℕ) :
    ℕ → Heap × Option (List (List ℝ) × Option ℝ)
  | 0 => (hp, some ([], none))
  | n + 1 =>
    match simHeapAll m tp Xoos dS dY hp iL iS iY h n with
    | (hp2, none) => (hp2, none)
    | (hp2, some (rows, thv)) =>
      match simHeapPath m tp Xoos (hp2.arr iS) (hp2.arr iY) dS dY hp2 iL iS iY n h thv with
      | (hp3, none) => (hp3, none)
      | (hp3, some (row, thv2)) => (hp3, some (rows ++ [row], thv2))

lemma meanHeapStep_hext (m : Cfg) (tp : ℕ → ℝ) (Xoos : ℕ → ℕ → ℝ) :
    ∀ (st : Heap × ℕ × ℕ × ℕ) (t : ℕ), HExt st.1 (meanHeapStep m tp Xoos st t).1 := by
  intro st t
  exact hext_trans (halloc_hext _ _) (hext_trans (halloc_hext _ _) (halloc_hext _ _))

lemma simHeapStep_hext (m : Cfg) (tp : ℕ → ℝ) (Xoos : ℕ → ℕ → ℝ)
    (histS histY : List ℝ) (dS dY : ℕ → ℕ → ℕ) (pathIdx : ℕ) :
    ∀ (st : Heap × Option ((ℕ × ℕ × ℕ) × Option ℝ)) (t : ℕ),
      HExt st.1 (simHeapStep m tp Xoos histS histY dS dY pathIdx st t).1 := by
  intro st t
  obtain ⟨hp, o⟩ := st
  cases o with
  | none => exact hext_refl _
  | some v =>
    obtain ⟨ids, thv⟩ := v
    show HExt hp (simHeapStep m tp Xoos histS histY dS dY pathIdx (hp, some (ids, thv)) t).1
    rw [simHeapStep]
    rcases hstep : simStep m tp Xoos histS histY (dS pathIdx t) (dY pathIdx t)
        (hp.arr ids.1) (hp.arr ids.2.1) (hp.arr ids.2.2) thv t with _ | v2
    · exact hext_refl _
    · obtain ⟨lm2, sc2, yy2, nth⟩ := v2
      exact hext_trans (halloc_hext _ _) (hext_trans (halloc_hext _ _) (halloc_hext _ _))

lemma copy3_hext (hp : Heap) (iL iS iY : ℕ) : HExt hp (copy3 hp iL iS iY).1 := by
  simp only [copy3]
  exact hext_trans (halloc_hext _ _) (hext_trans (halloc_hext _ _) (halloc_hext _ _))

lemma simHeapPath_hext (m : Cfg) (tp : ℕ → ℝ) (Xoos : ℕ → ℕ → ℝ)
    (histS histY : List ℝ) (dS dY : ℕ → ℕ → ℕ) (hp : Heap)
    (iL iS iY pathIdx h : ℕ) (thv : Option ℝ) :
    HExt hp (simHeapPath m tp Xoos histS histY dS dY hp iL iS iY pathIdx h thv).1 := by
  have hc : HExt hp
      (((List.range h).foldl (simHeapStep m tp Xoos histS histY dS dY pathIdx)
        ((copy3 hp iL iS iY).1, some ((copy3 hp iL iS iY).2, thv)))).1 :=
    hext_trans (copy3_hext hp iL iS iY)
      (foldl_hext _ (simHeapStep_hext m tp Xoos histS histY dS dY pathIdx)
        (List.range h) ((copy3 hp iL iS iY).1, some ((copy3 hp iL iS iY).2, thv)))
  rw [simHeapPath]
  split
  next hp2 heq =>
    rw [heq] at hc
    exact hc
  next hp2 ids thv2 heq =>
    rw [heq] at hc
    exact hc

lemma simHeapAll_hext (m : Cfg) (tp : ℕ → ℝ) (Xoos : ℕ → ℕ → ℝ)
    (dS dY : ℕ → ℕ → ℕ) (hp : Heap) (iL iS iY h : ℕ) :
    ∀ n, HExt hp (simHeapAll m tp Xoos dS dY hp iL iS iY h n).1 := by
  intro n
  induction n with
  | zero => exact hext_refl _
  | succ n ih =>
    rw [simHeapAll]
    split
    next hp2 heq =>
      rw [heq] at ih
      exact ih
    next hp2 rows thv heq =>
      rw [heq] at ih
      have hpath := simHeapPath_hext m tp Xoos (hp2.arr iS) (hp2.arr iY) dS dY hp2 iL iS iY n h thv
      split
      next hp3 heq2 =>
        rw [heq2] at hpath
        exact hext_trans ih hpath
      next hp3 row thv2 heq2 =>
        rw [heq2] at hpath
        exact hext_trans ih hpath

lemma meanPredHeap_hext (m : Cfg) (tp : ℕ → ℝ) (Xoos : ℕ → ℕ → ℝ)
    (hp0 : Heap) (iL iS iY h : ℕ) :
    HExt hp0 (meanPredHeap m tp Xoos hp0 iL iS iY h).1 := by
  simp only [meanPredHeap]
  exact hext_trans (copy3_hext hp0 iL iS iY)
    (foldl_hext _ (meanHeapStep_hext m tp Xoos) _ _)

/-- C10: neither _mean_prediction nor _sim_prediction mutates its input
arrays: each copies the inputs into fresh cells and only ever allocates
fresh arrays afterwards, so the caller's cells hold exactly the same
arrays after the call as before. -/
theorem c10_no_input_mutation (m : Cfg) (tp : ℕ → ℝ) (Xoos : ℕ → ℕ → ℝ)
    (dS dY : ℕ → ℕ → ℕ) (hp : Heap) (iL iS iY h sims : ℕ)
    (hL : iL < hp.next) (hS : iS < hp.next) (hY : iY < hp.next) :
    ((meanPredHeap m tp Xoos hp iL iS iY h).1.arr iL = hp.arr iL
      ∧ (meanPredHeap m tp Xoos hp iL iS iY h).1.arr iS = hp.arr iS
      ∧ (meanPredHeap m tp Xoos hp iL iS iY h).1.arr iY = hp.arr iY)
    ∧ ((simHeapAll m tp Xoos dS dY hp iL iS iY h sims).1.arr iL = hp.arr iL
      ∧ (simHeapAll m tp Xoos dS dY hp iL iS iY h sims).1.arr iS = hp.arr iS
      ∧ (simHeapAll m tp Xoos dS dY hp iL iS iY h sims).1.arr iY = hp.arr iY) := by
  have h1 := meanPredHeap_hext m tp Xoos hp iL iS iY h
  have h2 := simHeapAll_hext m tp Xoos dS dY hp iL iS iY h sims
  exact ⟨⟨h1.2 iL hL, h1.2 iS hS, h1.2 iY hY⟩, ⟨h2.2 iL hL, h2.2 iS hS, h2.2 iY hY⟩⟩

/-- Concrete three-cell store for the witness. -/
noncomputable def hpW : Heap := { arr := fun _ => [], next := 3 }

/-- Witness for c10_no_input_mutation on a concrete store holding the
three inputs at cells 0, 1, 2. -/
theorem c10_no_input_mutation_witness :
    (0 < hpW.next ∧ 1 < hpW.next ∧ 2 < hpW.next)
    ∧ (((meanPredHeap cfgW parmW cfgW.X hpW 0 1 2 1).1.arr 0 = hpW.arr 0
      ∧ (meanPredHeap cfgW parmW cfgW.X hpW 0 1 2 1).1.arr 1 = hpW.arr 1
      ∧ (meanPredHeap cfgW parmW cfgW.X hpW 0 1 2 1).1.arr 2 = hpW.arr 2)
    ∧ ((simHeapAll cfgW parmW cfgW.X (fun _ _ => 0) (fun _ _ => 0) hpW 0 1 2 1 1).1.arr 0 = hpW.arr 0
      ∧ (simHeapAll cfgW parmW cfgW.X (fun _ _ => 0) (fun _ _ => 0) hpW 0 1 2 1 1).1.arr 1 = hpW.arr 1
      ∧ (simHeapAll cfgW parmW cfgW.X (fun _ _ => 0) (fun _ _ => 0) hpW 0 1 2 1 1).1.arr 2 = hpW.arr 2)) :=
  ⟨⟨by decide, by decide, by decide⟩,
    c10_no_input_mutation cfgW parmW cfgW.X (fun _ _ => 0) (fun _ _ => 0) hpW 0 1 2 1 1
      (by decide) (by decide) (by decide)⟩

end EGARCHMRegV
